import Mathlib

/-!
Verification development for the member Q&A service (src/main.py).

The Python program keeps an in-memory `DataStore` with a list of formatted
message strings and an optional embedding matrix, rebuilt by
`fetch_and_index` and queried by `retrieve_relevant_context`; the
`/ask` endpoint (`ask_question`) retrieves context and calls an external
generator.  This file gives a shallow embedding of that code and proves
properties of it.

Modelling decisions, stated once here:

- The sentence-embedding model (`SentenceTransformer.encode`) is an external
  component; it is modelled as an arbitrary function `E : String → List ℤ`
  (an `Embedder`), applied pointwise for batch encoding, which matches the
  determinism contract of the model wrapper.  Integer coordinates lose no
  observable behaviour: cosine similarity is invariant under positive
  scaling of each vector separately, and every finite-precision (dyadic
  rational) vector is a positive scaling of an integer vector, so it has an
  integer representative with identical similarity scores.
- Real-valued cosine similarities `dot/(‖a‖·‖b‖)` are represented exactly by
  a pair `Score(num, den)` denoting the real number `num / √den`
  (`num` the dot product, `den` the product of the squared norms, with a
  zero squared norm replaced by 1 exactly as `sklearn` cosine_similarity
  does).  Comparison of two such values, and against the threshold `0.3`,
  is decided exactly on the integer data by comparing signed squares;
  the bridge to the real value is proved below (`sle_iff_val`,
  `sgt03_iff_val`).  Floating-point rounding is abstracted to exact
  arithmetic.
- `np.argsort` is modelled as an ascending sort of the index range that
  breaks ties on equal similarity values by ascending index, which is the
  behaviour of numpy on these inputs (its introsort runs an insertion sort,
  a stable sort, on small arrays, and this is the standard deterministic
  reading of argsort).
- Python exceptions are made explicit: the outcome of the HTTP fetch is an
  input to `fetch_and_index` (`FetchOutcome`), an uncaught exception is a
  `some PyError` component of its result, an `IndexError` inside
  `retrieve_relevant_context` makes it return `none`, and the external
  generator passed to `ask_question` returns a `GenOutcome`.  The boolean
  paired with the result of `ask_question` records whether the generation
  capability was invoked.
-/

namespace MemberQA

/-- External sentence-embedding model: text to dense vector
(src/main.py line 39, `SentenceTransformer`), kept abstract. -/
abbrev Embedder := String → List ℤ

/-! ### Exact representation of cosine-similarity scores -/

/-- Dot product of two vectors, truncating like `zip` (dimensions always
agree in the program). -/
def dot (a b : List ℤ) : ℤ :=
  (List.zipWith (fun x y => x * y) a b).sum

/-- Signed square `x * |x|`, a strictly monotone function used to compare
quotients by square roots without leaving ℤ. -/
def ssq (x : ℤ) : ℤ := if x < 0 then -(x * x) else x * x

/-- A cosine-similarity value, representing the real number `num / √den`.
`num` is the dot product and `den` the product of the two squared norms. -/
structure Score where
  num : ℤ
  den : ℤ
deriving DecidableEq

/-- Replace a zero squared norm by 1, as `sklearn` cosine_similarity does
for zero vectors (so that a zero vector gets similarity 0). -/
def normFix (x : ℤ) : ℤ := if x = 0 then 1 else x

/-- Cosine similarity of `q` and `v` (src/main.py line 84,
`cosine_similarity`), as an exact `Score`: the real value
`dot q v / (‖q‖ * ‖v‖)`. -/
def cosScore (q v : List ℤ) : Score :=
  ⟨dot q v, normFix (dot q q) * normFix (dot v v)⟩

/-- Decides `num₁/√den₁ ≤ num₂/√den₂` on the integer data (for positive
denominators), by comparing signed squares. -/
def sle (s t : Score) : Bool :=
  decide (ssq s.num * t.den ≤ ssq t.num * s.den)

/-- Decides `0.3 < num/√den`, the strict relevance-threshold comparison of
src/main.py line 93 (`similarities[idx] > 0.3`). -/
def sgt03 (s : Score) : Bool :=
  decide (9 * s.den < 100 * ssq s.num)

/-! ### The data store and index build -/

/-- The in-memory store of src/main.py lines 34-39: the formatted message
strings and the optional embedding matrix.  The model object itself is the
abstract `Embedder` parameter of each operation. -/
structure DataStore where
  messages : List String
  embeddings : Option (List (List ℤ))
deriving DecidableEq

/-- The state built by `DataStore.__init__`: no messages, no embeddings. -/
def initDataStore : DataStore := ⟨[], none⟩

/-- One raw item of the fetched JSON payload: the two fields the code reads,
each possibly missing (src/main.py lines 55-59). -/
structure RawRecord where
  user_name : Option String
  message : Option String
deriving DecidableEq

/-- Outcome of the HTTP fetch inside `fetch_and_index`:
either the decoded `items` list, or one of the three failure points of the
`try` block — `httpx.RequestError` from the request itself,
`raise_for_status` raising on a 4xx/5xx status (`httpx.HTTPStatusError`,
which is not a subclass of `httpx.RequestError`), or `response.json()`
failing to decode. -/
inductive FetchOutcome where
  | success (items : List RawRecord)
  | transportError (err : String)
  | httpStatusError (status : Nat)
  | jsonDecodeError (err : String)

/-- An exception escaping `fetch_and_index` uncaught. -/
inductive PyError where
  | httpStatusError (status : Nat)
  | jsonDecodeError (err : String)
deriving DecidableEq

/-- The list comprehension of src/main.py lines 55-59: keep the items that
have both fields and format them as `"user_name: message"`. -/
def formatRecords (items : List RawRecord) : List String :=
  items.filterMap (fun r =>
    match r.message, r.user_name with
    | some m, some u => some (u ++ ": " ++ m)
    | _, _ => none)

/-- `DataStore.fetch_and_index` (src/main.py lines 41-73), with the fetch
outcome made explicit.  Returns the new store state and the uncaught
exception, if any.  Faithful points: on `httpx.RequestError` the handler
sets `self.messages = []` and leaves `self.embeddings` alone; on a
successful fetch `self.messages` is assigned before the emptiness check, so
an empty filtered record set also leaves stale embeddings in place; status
and JSON-decoding errors are raised before any assignment and are not
caught. -/
def fetch_and_index (E : Embedder) (st : DataStore) (o : FetchOutcome) :
    DataStore × Option PyError :=
  match o with
  | .success items =>
    let msgs := formatRecords items
    if msgs = [] then
      (⟨msgs, st.embeddings⟩, none)
    else
      (⟨msgs, some (msgs.map E)⟩, none)
  | .transportError _ => (⟨[], st.embeddings⟩, none)
  | .httpStatusError status => (st, some (.httpStatusError status))
  | .jsonDecodeError err => (st, some (.jsonDecodeError err))

/-- States reachable from the initial store by any sequence of
`fetch_and_index` operations, whatever their outcomes. -/
inductive Reachable (E : Embedder) : DataStore → Prop where
  | init : Reachable E initDataStore
  | step (st : DataStore) (o : FetchOutcome) :
      Reachable E st → Reachable E (fetch_and_index E st o).1

/-- The store state right after a successful fetch of `items`. -/
def builtState (E : Embedder) (st : DataStore) (items : List RawRecord) :
    DataStore :=
  (fetch_and_index E st (.success items)).1

/-! ### Retrieval -/

/-- The similarity row `cosine_similarity(question_embedding, embeddings)[0]`
of src/main.py line 84: one score per stored embedding. -/
def simsOf (E : Embedder) (st : DataStore) (question : String) : List Score :=
  match st.embeddings with
  | none => []
  | some es => es.map (fun v => cosScore (E question) v)

/-- Indexing into the similarity row (always in range where used). -/
def scoreAt (sims : List Score) (i : Nat) : Score :=
  sims.getD i ⟨0, 1⟩

/-- The ordering `np.argsort` sorts index `i` before index `j` by:
ascending similarity value, ties broken by ascending index. -/
def idxLe (sims : List Score) (i j : Nat) : Bool :=
  if sle (scoreAt sims i) (scoreAt sims j) && sle (scoreAt sims j) (scoreAt sims i) then
    decide (i ≤ j)
  else
    sle (scoreAt sims i) (scoreAt sims j)

/-- `np.argsort(similarities)` (src/main.py line 87): the index range sorted
ascending by similarity, ties by index. -/
def argsort (sims : List Score) : List Nat :=
  List.insertionSort (fun i j => idxLe sims i j = true) (List.range sims.length)

/-- Python slice `xs[-k:]` for a natural `k`: the last `k` elements, except
that `k = 0` gives `xs[-0:] = xs[0:]`, the whole list. -/
def pyTail (k : Nat) (xs : List Nat) : List Nat :=
  if k = 0 then xs else xs.drop (xs.length - k)

/-- `top_k_indices = np.argsort(similarities)[-top_k:][::-1]`
(src/main.py line 87). -/
def topKIndices (E : Embedder) (st : DataStore) (question : String)
    (top_k : Nat) : List Nat :=
  (pyTail top_k (argsort (simsOf E st question))).reverse

/-- The indices whose messages actually enter the context string: the
selected indices that clear the relevance threshold. -/
def retrieveList (E : Embedder) (st : DataStore) (question : String)
    (top_k : Nat) : List Nat :=
  (topKIndices E st question top_k).filter
    (fun i => sgt03 (scoreAt (simsOf E st question) i))

/-- One iteration of the context-building loop of src/main.py lines 91-94:
if the similarity at index `i` clears the threshold, append
`self.messages[i] + "\n"`; `self.messages[i]` raises `IndexError`
(modelled by `none`) when the index is out of range. -/
def ctxStep (msgs : List String) (sims : List Score)
    (acc : Option String) (i : Nat) : Option String :=
  match acc with
  | none => none
  | some ctx =>
    if sgt03 (scoreAt sims i) then
      match msgs[i]? with
      | some m => some (ctx ++ m ++ "\n")
      | none => none
    else some ctx

/-- The context-building loop of src/main.py lines 90-94, starting from the
empty string. -/
def buildContext (msgs : List String) (sims : List Score) (idxs : List Nat) :
    Option String :=
  idxs.foldl (ctxStep msgs sims) (some "")

/-- One iteration of the same loop on a well-formed index (no
out-of-range access). -/
def renderStep (msgs : List String) (sims : List Score)
    (acc : String) (i : Nat) : String :=
  if sgt03 (scoreAt sims i) then acc ++ msgs.getD i "" ++ "\n" else acc

/-- The same loop on a well-formed index: threshold-conditional
concatenation of newline-terminated message lines. -/
def renderContext (msgs : List String) (sims : List Score)
    (idxs : List Nat) : String :=
  idxs.foldl (renderStep msgs sims) ""

/-- Unconditional concatenation of the newline-terminated lines of the given
indices. -/
def lineConcat (msgs : List String) (idxs : List Nat) : String :=
  idxs.foldl (fun acc i => acc ++ msgs.getD i "" ++ "\n") ""

/-- `DataStore.retrieve_relevant_context` (src/main.py lines 75-96).
Returns `none` for an uncaught `IndexError`, `some ctx` otherwise. -/
def retrieve_relevant_context (E : Embedder) (st : DataStore)
    (question : String) (top_k : Nat) : Option String :=
  match st.embeddings with
  | none => some ""
  | some es =>
    if es.length = 0 then some ""
    else
      buildContext st.messages (simsOf E st question)
        (topKIndices E st question top_k)

/-! ### The ask endpoint -/

/-- Outcome of the external generation capability: the `response.text` it
produced, or the exception it raised. -/
inductive GenOutcome where
  | ok (text : String)
  | failure (err : String)

/-- Result of a `/ask` request: an `HTTPException` with status and detail,
a JSON answer, or an uncaught exception escaping the handler. -/
inductive AskResult where
  | httpError (status : Nat) (detail : String)
  | answer (text : String)
  | crashed
deriving DecidableEq

/-- The 503 detail of src/main.py lines 132-136. -/
def unavailableDetail : String :=
  "Service is unavailable. Data store is not initialized."

/-- The canned no-relevant-information answer of src/main.py line 142. -/
def noInfoAnswer : String :=
  "I could not find any relevant information in the member messages to answer this question."

/-- The canned answer substituted for an empty generated answer
(src/main.py line 168). -/
def emptyAnswerFallback : String :=
  "I\x27m having trouble generating an answer. Please try rephrasing your question."

/-- The fixed 500 detail of src/main.py line 176; it does not mention the
caught exception. -/
def genFailureDetail : String :=
  "Error generating answer. Please check your GEMINI_API_KEY is valid."

/-- The prompt f-string of src/main.py lines 145-157. -/
def mkPrompt (context question : String) : String :=
  "You are a helpful assistant answering questions about member preferences and activities.\n\nAnswer the user\x27s question based ONLY on the provided member messages below.\nIf the answer is not in the messages, clearly state that you cannot find the information.\nBe concise but informative.\n\n--- MEMBER MESSAGES ---\n"
    ++ context
    ++ "\n--- END MESSAGES ---\n\nQuestion: "
    ++ question
    ++ "\n\nAnswer (be specific and cite member names when relevant):"

/-- The `/ask` handler `ask_question` (src/main.py lines 116-177), with the
generation capability passed in as `gen`.  The boolean of the result records
whether `gen` was invoked.  `String.trim` models `str.strip()`. -/
def ask_question (E : Embedder) (st : DataStore) (question : String)
    (gen : String → GenOutcome) : AskResult × Bool :=
  if st.messages = [] then
    (.httpError 503 unavailableDetail, false)
  else
    match retrieve_relevant_context E st question 10 with
    | none => (.crashed, false)
    | some context =>
      if context = "" then
        (.answer noInfoAnswer, false)
      else
        match gen (mkPrompt context question) with
        | .failure _ => (.httpError 500 genFailureDetail, true)
        | .ok t =>
          let answer := t.trim
          (.answer (if answer = "" then emptyAnswerFallback else answer), true)

/-! ### Real-value semantics of scores -/

/-- The real number a `Score` stands for: the cosine-similarity value
`num / √den`. -/
noncomputable def Score.val (s : Score) : ℝ :=
  (s.num : ℝ) / Real.sqrt (s.den : ℝ)

theorem ssq_eq_mul_abs (x : ℤ) : ssq x = x * |x| := by
  unfold ssq
  rcases lt_or_ge x 0 with h | h
  · rw [if_pos h, abs_of_neg h]
    ring
  · rw [if_neg (not_lt.mpr h), abs_of_nonneg h]

theorem signedSq_lt_signedSq {a b : ℝ} (h : a < b) : a * |a| < b * |b| := by
  rcases le_or_lt 0 a with ha | ha
  · rw [abs_of_nonneg ha, abs_of_nonneg (le_trans ha h.le)]
    nlinarith
  · rcases le_or_lt 0 b with hb | hb
    · rw [abs_of_neg ha, abs_of_nonneg hb]
      nlinarith
    · rw [abs_of_neg ha, abs_of_neg hb]
      nlinarith

theorem signedSq_le_iff {a b : ℝ} : a * |a| ≤ b * |b| ↔ a ≤ b := by
  have hmono : StrictMono (fun x : ℝ => x * |x|) := fun x y h => signedSq_lt_signedSq h
  exact hmono.le_iff_le

theorem signedSq_sqrt_mul (a e : ℝ) (he : 0 ≤ e) :
    (a * Real.sqrt e) * |a * Real.sqrt e| = a * |a| * e := by
  rw [abs_mul, abs_of_nonneg (Real.sqrt_nonneg e)]
  have h := Real.sq_sqrt he
  calc a * Real.sqrt e * (|a| * Real.sqrt e) = a * |a| * Real.sqrt e ^ 2 := by ring
    _ = a * |a| * e := by rw [h]

/-- Soundness of the decidable comparison: for positive denominators it
decides exactly the order of the real values. -/
theorem sle_iff_val {s t : Score} (hs : 0 < s.den) (ht : 0 < t.den) :
    sle s t = true ↔ s.val ≤ t.val := by
  have hsR : (0 : ℝ) < (s.den : ℝ) := by exact_mod_cast hs
  have htR : (0 : ℝ) < (t.den : ℝ) := by exact_mod_cast ht
  have hss : (0 : ℝ) < Real.sqrt (s.den : ℝ) := Real.sqrt_pos.mpr hsR
  have hts : (0 : ℝ) < Real.sqrt (t.den : ℝ) := Real.sqrt_pos.mpr htR
  unfold sle Score.val
  rw [decide_eq_true_eq, div_le_div_iff₀ hss hts]
  rw [← signedSq_le_iff, signedSq_sqrt_mul _ _ htR.le, signedSq_sqrt_mul _ _ hsR.le]
  rw [ssq_eq_mul_abs, ssq_eq_mul_abs]
  constructor
  · intro h
    have : ((s.num * |s.num| * t.den : ℤ) : ℝ) ≤ ((t.num * |t.num| * s.den : ℤ) : ℝ) := by
      exact_mod_cast h
    push_cast at this
    linarith
  · intro h
    have : ((s.num * |s.num| * t.den : ℤ) : ℝ) ≤ ((t.num * |t.num| * s.den : ℤ) : ℝ) := by
      push_cast
      linarith
    exact_mod_cast this

/-- Soundness of the threshold comparison: for a positive denominator it
decides exactly `0.3 < val`. -/
theorem sgt03_iff_val {s : Score} (hs : 0 < s.den) :
    sgt03 s = true ↔ (3 / 10 : ℝ) < s.val := by
  have hsR : (0 : ℝ) < (s.den : ℝ) := by exact_mod_cast hs
  have hss : (0 : ℝ) < Real.sqrt (s.den : ℝ) := Real.sqrt_pos.mpr hsR
  unfold sgt03 Score.val
  rw [decide_eq_true_eq, lt_div_iff₀ hss]
  have key : (3 / 10 : ℝ) * Real.sqrt (s.den : ℝ) < (s.num : ℝ) ↔
      ((3 / 10 : ℝ) * Real.sqrt (s.den : ℝ)) * |(3 / 10 : ℝ) * Real.sqrt (s.den : ℝ)| <
        (s.num : ℝ) * |(s.num : ℝ)| := by
    constructor
    · exact signedSq_lt_signedSq
    · intro h
      by_contra hc
      have := signedSq_le_iff.mpr (not_lt.mp hc)
      linarith
  rw [key, signedSq_sqrt_mul _ _ hsR.le]
  have habs : |(3 / 10 : ℝ)| = 3 / 10 := abs_of_nonneg (by norm_num)
  rw [habs]
  rw [ssq_eq_mul_abs]
  constructor
  · intro h
    have : ((9 * s.den : ℤ) : ℝ) < ((100 * (s.num * |s.num|) : ℤ) : ℝ) := by exact_mod_cast h
    push_cast at this
    nlinarith
  · intro h
    have : ((9 * s.den : ℤ) : ℝ) < ((100 * (s.num * |s.num|) : ℤ) : ℝ) := by
      push_cast
      nlinarith
    exact_mod_cast this

/-! ### Order lemmas for scores -/

theorem sle_total (s t : Score) : sle s t = true ∨ sle t s = true := by
  unfold sle
  rcases le_total (ssq s.num * t.den) (ssq t.num * s.den) with h | h
  · left
    exact decide_eq_true h
  · right
    exact decide_eq_true h

theorem sle_trans {s t u : Score} (hs : 0 < s.den) (ht : 0 < t.den)
    (hu : 0 < u.den) (h1 : sle s t = true) (h2 : sle t u = true) :
    sle s u = true := by
  simp only [sle, decide_eq_true_eq] at h1 h2 ⊢
  have h1u : ssq s.num * t.den * u.den ≤ ssq t.num * s.den * u.den :=
    mul_le_mul_of_nonneg_right h1 hu.le
  have h2s : ssq t.num * u.den * s.den ≤ ssq u.num * t.den * s.den :=
    mul_le_mul_of_nonneg_right h2 hs.le
  have h3 : ssq s.num * u.den * t.den ≤ ssq u.num * s.den * t.den := by nlinarith
  exact le_of_mul_le_mul_right h3 ht

theorem dot_self_nonneg (a : List ℤ) : 0 ≤ dot a a := by
  induction a with
  | nil => simp [dot]
  | cons x xs ih =>
    have hstep : dot (x :: xs) (x :: xs) = x * x + dot xs xs := by
      simp [dot]
    rw [hstep]
    nlinarith [mul_self_nonneg x]

theorem normFix_pos {x : ℤ} (h : 0 ≤ x) : 0 < normFix x := by
  unfold normFix
  split
  · exact one_pos
  · omega

theorem cosScore_den_pos (q v : List ℤ) : 0 < (cosScore q v).den :=
  mul_pos (normFix_pos (dot_self_nonneg q)) (normFix_pos (dot_self_nonneg v))

theorem simsOf_den_pos (E : Embedder) (st : DataStore) (q : String) :
    ∀ s ∈ simsOf E st q, 0 < s.den := by
  intro s hs
  unfold simsOf at hs
  split at hs
  · cases hs
  · obtain ⟨v, _, rfl⟩ := List.mem_map.mp hs
    exact cosScore_den_pos _ _

theorem scoreAt_den_pos {sims : List Score} (h : ∀ s ∈ sims, 0 < s.den)
    (i : Nat) : 0 < (scoreAt sims i).den := by
  unfold scoreAt
  rcases lt_or_ge i sims.length with hi | hi
  · rw [List.getD_eq_getElem?_getD, List.getElem?_eq_getElem hi]
    exact h _ (List.getElem_mem hi)
  · rw [List.getD_eq_getElem?_getD, List.getElem?_eq_none hi]
    exact one_pos

/-! ### Order lemmas for the argsort index comparison -/

theorem sle_of_idxLe {sims : List Score} {i j : Nat}
    (h : idxLe sims i j = true) :
    sle (scoreAt sims i) (scoreAt sims j) = true := by
  unfold idxLe at h
  split at h
  · next hc => exact (Bool.and_eq_true_iff.mp hc).1
  · exact h

theorem idxLe_total (sims : List Score) (i j : Nat) :
    idxLe sims i j = true ∨ idxLe sims j i = true := by
  by_cases h1 : sle (scoreAt sims i) (scoreAt sims j) = true
  · by_cases h2 : sle (scoreAt sims j) (scoreAt sims i) = true
    · rcases Nat.le_total i j with h | h
      · left
        unfold idxLe
        rw [h1, h2]
        simpa using h
      · right
        unfold idxLe
        rw [h2, h1]
        simpa using h
    · left
      unfold idxLe
      rw [h1, Bool.eq_false_iff.mpr h2]
      simp
  · have h2 : sle (scoreAt sims j) (scoreAt sims i) = true :=
      (sle_total _ _).resolve_left h1
    right
    unfold idxLe
    rw [h2, Bool.eq_false_iff.mpr h1]
    simp

theorem idxLe_trans {sims : List Score}
    (hden : ∀ m, 0 < (scoreAt sims m).den) (i j k : Nat)
    (h1 : idxLe sims i j = true) (h2 : idxLe sims j k = true) :
    idxLe sims i k = true := by
  have hij : sle (scoreAt sims i) (scoreAt sims j) = true := sle_of_idxLe h1
  have hjk : sle (scoreAt sims j) (scoreAt sims k) = true := sle_of_idxLe h2
  have hik : sle (scoreAt sims i) (scoreAt sims k) = true :=
    sle_trans (hden i) (hden j) (hden k) hij hjk
  unfold idxLe
  split
  · next hc =>
    have hki : sle (scoreAt sims k) (scoreAt sims i) = true :=
      (Bool.and_eq_true_iff.mp hc).2
    have hji : sle (scoreAt sims j) (scoreAt sims i) = true :=
      sle_trans (hden j) (hden k) (hden i) hjk hki
    have hkj : sle (scoreAt sims k) (scoreAt sims j) = true :=
      sle_trans (hden k) (hden i) (hden j) hki hij
    have hij' : i ≤ j := by
      unfold idxLe at h1
      rw [hij, hji] at h1
      simpa using h1
    have hjk' : j ≤ k := by
      unfold idxLe at h2
      rw [hjk, hkj] at h2
      simpa using h2
    exact decide_eq_true (Nat.le_trans hij' hjk')
  · exact hik

theorem idxLe_tie_lt {sims : List Score} {i j : Nat} (hij : i < j)
    (h1 : sle (scoreAt sims i) (scoreAt sims j) = true)
    (h2 : sle (scoreAt sims j) (scoreAt sims i) = true) :
    idxLe sims i j = true ∧ idxLe sims j i = false := by
  constructor
  · unfold idxLe
    rw [h1, h2]
    simp only [Bool.and_self, if_true]
    exact decide_eq_true (Nat.le_of_lt hij)
  · unfold idxLe
    rw [h1, h2]
    simp only [Bool.and_self, if_true]
    simpa using hij

/-! ### Properties of argsort and the top-k slice -/

theorem argsort_perm (sims : List Score) :
    (argsort sims).Perm (List.range sims.length) :=
  List.perm_insertionSort _ _

theorem mem_argsort (sims : List Score) (i : Nat) :
    i ∈ argsort sims ↔ i < sims.length := by
  rw [(argsort_perm sims).mem_iff, List.mem_range]

theorem argsort_nodup (sims : List Score) : (argsort sims).Nodup :=
  (argsort_perm sims).symm.nodup (List.nodup_range _)

theorem argsort_sorted (sims : List Score)
    (hden : ∀ m, 0 < (scoreAt sims m).den) :
    List.Pairwise (fun i j => idxLe sims i j = true) (argsort sims) := by
  unfold argsort
  haveI : IsTotal Nat (fun i j => idxLe sims i j = true) := ⟨idxLe_total sims⟩
  haveI : IsTrans Nat (fun i j => idxLe sims i j = true) := ⟨idxLe_trans hden⟩
  exact List.sorted_insertionSort _ _

theorem pyTail_sublist (k : Nat) (xs : List Nat) : (pyTail k xs).Sublist xs := by
  unfold pyTail
  split
  · exact List.Sublist.refl xs
  · exact List.drop_sublist _ xs

/-- If two distinct elements both occur in a list, one of the two ordered
pairs occurs as a sublist. -/
theorem pair_sublist_or {l : List Nat} {a b : Nat} (ha : a ∈ l) (hb : b ∈ l)
    (hab : a ≠ b) : [a, b].Sublist l ∨ [b, a].Sublist l := by
  induction l with
  | nil => cases ha
  | cons x xs ih =>
    by_cases hxa : x = a
    · subst hxa
      have hb' : b ∈ xs := by
        rcases List.mem_cons.mp hb with h | h
        · exact absurd h.symm hab
        · exact h
      left
      exact List.Sublist.cons₂ x (List.singleton_sublist.mpr hb')
    · by_cases hxb : x = b
      · subst hxb
        have ha' : a ∈ xs := by
          rcases List.mem_cons.mp ha with h | h
          · exact absurd h.symm hxa
          · exact h
        right
        exact List.Sublist.cons₂ x (List.singleton_sublist.mpr ha')
      · have ha' : a ∈ xs := by
          rcases List.mem_cons.mp ha with h | h
          · exact absurd h.symm hxa
          · exact h
        have hb' : b ∈ xs := by
          rcases List.mem_cons.mp hb with h | h
          · exact absurd h.symm hxb
          · exact h
        rcases ih ha' hb' with h | h
        · left
          exact List.Sublist.cons x h
        · right
          exact List.Sublist.cons x h

/-- The last-k suffix of a sorted list is upward closed: anything in the list
that is not below a suffix element is itself in the suffix. -/
theorem mem_pyTail_of_not_below {sims : List Score} {l : List Nat}
    (hsort : List.Pairwise (fun a b => idxLe sims a b = true) l)
    {i j k : Nat} (hi : i ∈ pyTail k l) (hj : j ∈ l)
    (hji : idxLe sims j i = false) : j ∈ pyTail k l := by
  unfold pyTail at hi ⊢
  split at hi
  · next hk =>
    rw [if_pos hk]
    exact hj
  · next hk =>
    rw [if_neg hk]
    set m := l.length - k with hm
    have hsplit : List.take m l ++ List.drop m l = l := List.take_append_drop m l
    rcases List.mem_append.mp (by rw [hsplit]; exact hj) with hjt | hjd
    · exfalso
      have hpair : [j, i].Sublist l := by
        rw [← hsplit]
        exact List.Sublist.append (List.singleton_sublist.mpr hjt)
          (List.singleton_sublist.mpr hi)
      have := List.pairwise_iff_forall_sublist.mp hsort hpair
      rw [hji] at this
      cases this
    · exact hjd

theorem topKIndices_pairwise_ge (E : Embedder) (st : DataStore) (q : String)
    (k : Nat) :
    List.Pairwise (fun a b => idxLe (simsOf E st q) b a = true)
      (topKIndices E st q k) := by
  have hden : ∀ m, 0 < (scoreAt (simsOf E st q) m).den :=
    scoreAt_den_pos (simsOf_den_pos E st q)
  unfold topKIndices
  rw [List.pairwise_reverse]
  exact List.Pairwise.sublist (pyTail_sublist _ _)
    (argsort_sorted (simsOf E st q) hden)

theorem topKIndices_mem_lt (E : Embedder) (st : DataStore) (q : String)
    (k : Nat) : ∀ i ∈ topKIndices E st q k, i < (simsOf E st q).length := by
  intro i hi
  unfold topKIndices at hi
  have h1 := List.mem_reverse.mp hi
  have h2 := (pyTail_sublist k (argsort (simsOf E st q))).subset h1
  exact (mem_argsort _ _).mp h2

/-! ### Properties of the context-building loop -/

theorem foldl_ctxStep_none (msgs : List String) (sims : List Score) :
    ∀ idxs : List Nat, List.foldl (ctxStep msgs sims) none idxs = none := by
  intro idxs
  induction idxs with
  | nil => rfl
  | cons x xs ih =>
    rw [List.foldl_cons]
    exact ih

theorem foldl_ctxStep_shape (msgs : List String) (sims : List Score) :
    ∀ (idxs : List Nat) (acc r : String),
      List.foldl (ctxStep msgs sims) (some acc) idxs = some r →
      r = acc ∨ ∃ s, r = s ++ "\n" := by
  intro idxs
  induction idxs with
  | nil =>
    intro acc r h
    left
    exact (Option.some.inj h).symm
  | cons x xs ih =>
    intro acc r h
    rw [List.foldl_cons] at h
    by_cases hthr : sgt03 (scoreAt sims x) = true
    · rcases hm : msgs[x]? with _ | m
      · rw [show ctxStep msgs sims (some acc) x = none from by
          simp [ctxStep, hthr, hm]] at h
        rw [foldl_ctxStep_none] at h
        cases h
      · rw [show ctxStep msgs sims (some acc) x = some (acc ++ m ++ "\n") from by
          simp [ctxStep, hthr, hm]] at h
        rcases ih _ _ h with h1 | h1
        · right
          exact ⟨acc ++ m, h1⟩
        · right
          exact h1
    · rw [show ctxStep msgs sims (some acc) x = some acc from by
        simp [ctxStep, hthr]] at h
      exact ih _ _ h

theorem foldl_ctxStep_render (msgs : List String) (sims : List Score) :
    ∀ (idxs : List Nat) (acc : String), (∀ i ∈ idxs, i < msgs.length) →
      List.foldl (ctxStep msgs sims) (some acc) idxs =
        some (List.foldl (renderStep msgs sims) acc idxs) := by
  intro idxs
  induction idxs with
  | nil =>
    intro acc _
    rfl
  | cons x xs ih =>
    intro acc h
    have hx : x < msgs.length := h x (List.mem_cons_self x xs)
    have hxs : ∀ i ∈ xs, i < msgs.length := fun i hi =>
      h i (List.mem_cons_of_mem x hi)
    have hgetE : msgs[x]? = some msgs[x] := List.getElem?_eq_getElem hx
    have hgetD : msgs.getD x "" = msgs[x] := by
      rw [List.getD_eq_getElem?_getD, hgetE]
      rfl
    rw [List.foldl_cons, List.foldl_cons]
    by_cases hthr : sgt03 (scoreAt sims x) = true
    · rw [show ctxStep msgs sims (some acc) x = some (acc ++ msgs[x] ++ "\n") from by
          simp [ctxStep, hthr, hgetE],
        show renderStep msgs sims acc x = acc ++ msgs[x] ++ "\n" from by
          simp [renderStep, hthr, hgetE]]
      exact ih _ hxs
    · rw [show ctxStep msgs sims (some acc) x = some acc from by
          simp [ctxStep, hthr],
        show renderStep msgs sims acc x = acc from by
          simp [renderStep, hthr]]
      exact ih _ hxs

theorem buildContext_eq_render {msgs : List String} {sims : List Score}
    {idxs : List Nat} (h : ∀ i ∈ idxs, i < msgs.length) :
    buildContext msgs sims idxs = some (renderContext msgs sims idxs) :=
  foldl_ctxStep_render msgs sims idxs "" h

theorem foldl_render_filter (msgs : List String) (sims : List Score) :
    ∀ (idxs : List Nat) (acc : String),
      List.foldl (renderStep msgs sims) acc idxs =
        List.foldl (fun a i => a ++ msgs.getD i "" ++ "\n") acc
          (idxs.filter (fun i => sgt03 (scoreAt sims i))) := by
  intro idxs
  induction idxs with
  | nil =>
    intro acc
    rfl
  | cons x xs ih =>
    intro acc
    rw [List.foldl_cons, List.filter_cons]
    by_cases hthr : sgt03 (scoreAt sims x) = true
    · rw [if_pos hthr, List.foldl_cons,
        show renderStep msgs sims acc x = acc ++ msgs.getD x "" ++ "\n" from by
          simp [renderStep, hthr]]
      exact ih _
    · rw [if_neg (by simpa using hthr),
        show renderStep msgs sims acc x = acc from by simp [renderStep, hthr]]
      exact ih _

theorem renderContext_eq_lineConcat (msgs : List String) (sims : List Score)
    (idxs : List Nat) :
    renderContext msgs sims idxs =
      lineConcat msgs (idxs.filter (fun i => sgt03 (scoreAt sims i))) :=
  foldl_render_filter msgs sims idxs ""

/-! ### Concrete instances used by counterexamples and witnesses -/

/-- A concrete embedder mapping every text to the vector `[1]`. -/
def E0 : Embedder := fun _ => [(1 : ℤ)]

/-- A concrete embedder mapping the question `"q"` to a vector orthogonal to
the one every other text gets. -/
def E1 : Embedder := fun s => if s = "q" then [(0 : ℤ), 1] else [(1 : ℤ), 0]

/-- A raw record with both fields present. -/
def recUM : RawRecord := ⟨some "u", some "m"⟩

/-- A Ready store with one indexed message. -/
def readySt : DataStore := ⟨["u: m"], some [[(1 : ℤ)]]⟩

/-- A Ready store with two identical indexed messages (equal similarity
scores for every question). -/
def readySt2 : DataStore := ⟨["u: m", "u: m"], some [[(1 : ℤ)], [(1 : ℤ)]]⟩

/-- A Ready store whose single embedding is orthogonal to `E1 "q"`. -/
def orthoSt : DataStore := ⟨["u: m"], some [[(1 : ℤ), 0]]⟩

/-- The store after a successful one-record build followed by a rebuild whose
filtered record set is empty: messages cleared, embeddings stale. -/
def staleSt : DataStore :=
  (fetch_and_index E0
    (fetch_and_index E0 initDataStore (FetchOutcome.success [recUM])).1
    (FetchOutcome.success [])).1

/-! ### C1 -/

/-- C1 (counterexample): the claim says a transport error during
`fetch_and_index` leaves the prior (messages, embeddings) state exactly as it
was; but at a Ready state with one message, the handler clears
`self.messages`, so the state changes. -/
theorem C1_counterexample :
    (fetch_and_index E0 readySt (FetchOutcome.transportError "boom")).1 ≠
      readySt := by
  decide

/-- C1 (amended): a transport error makes the build behave as "zero records"
without crashing — no exception escapes — but it sets `messages` to the
empty list while leaving the prior `embeddings` field unchanged, rather than
leaving the whole prior state untouched. -/
theorem C1_amended (E : Embedder) (st : DataStore) (e : String) :
    fetch_and_index E st (FetchOutcome.transportError e) =
      (⟨[], st.embeddings⟩, none) :=
  rfl

/-! ### C2 -/

/-- The invariant exactly as C2 states it: `len(embeddings) == len(messages)`
or both messages and embeddings are empty/absent. -/
def specInvariantC2 (st : DataStore) : Prop :=
  match st.embeddings with
  | none => st.messages = []
  | some es => es.length = st.messages.length ∨ (es = [] ∧ st.messages = [])

/-- C2 as stated: the invariant holds in every reachable state. -/
def claimC2 : Prop :=
  ∀ (E : Embedder) (st : DataStore), Reachable E st → specInvariantC2 st

/-- C2 (counterexample): a successful one-record build followed by a
transport-error build reaches the state `⟨[], some [[1]]⟩`, which has one
embedding row and zero messages — the stated invariant fails. -/
theorem C2_counterexample : ¬ claimC2 := by
  intro h
  have r1 := Reachable.step initDataStore (FetchOutcome.success [recUM])
    (Reachable.init : Reachable E0 initDataStore)
  have r2 := Reachable.step _ (FetchOutcome.transportError "boom") r1
  have e2 : (fetch_and_index E0
      (fetch_and_index E0 initDataStore (FetchOutcome.success [recUM])).1
      (FetchOutcome.transportError "boom")).1 = ⟨[], some [[(1 : ℤ)]]⟩ := by
    decide
  rw [e2] at r2
  have h2 := h E0 _ r2
  simp [specInvariantC2] at h2

/-- C2 (amended): in every reachable state, either `messages` is empty
(while `embeddings` may be absent or still hold the rows of the previous
successful build), or the two sequences have equal length. -/
theorem C2_amended (E : Embedder) (st : DataStore) (h : Reachable E st) :
    st.messages = [] ∨
      ∃ es, st.embeddings = some es ∧ es.length = st.messages.length := by
  induction h with
  | init =>
    left
    rfl
  | step st o _ ih =>
    cases o with
    | success items =>
      by_cases hm : formatRecords items = []
      · left
        simp [fetch_and_index, hm]
      · right
        refine ⟨(formatRecords items).map E, ?_, ?_⟩
        · simp [fetch_and_index, hm]
        · simp [fetch_and_index, hm]
    | transportError e =>
      left
      rfl
    | httpStatusError s => exact ih
    | jsonDecodeError e => exact ih

/-- C2 witness: the amended invariant evaluated at the initial state. -/
theorem C2_amended_witness :
    initDataStore.messages = [] ∨
      ∃ es, initDataStore.embeddings = some es ∧
        es.length = initDataStore.messages.length :=
  C2_amended E0 initDataStore Reachable.init

/-! ### C3 -/

/-- C3 (counterexample): after a successful build and then a rebuild with an
empty filtered record set, `messages` is empty but the stale embeddings
remain, and `retrieve_relevant_context` hits `self.messages[idx]` out of
range — an uncaught `IndexError` (`none`) — instead of returning `""`. -/
theorem C3_counterexample :
    staleSt.messages = [] ∧
    retrieve_relevant_context E0 staleSt "q" 10 = none ∧
    retrieve_relevant_context E0 staleSt "q" 10 ≠ some "" := by
  refine ⟨by decide, by decide, by decide⟩

/-- C3 (amended): when no prior successful build has populated the
embeddings, a rebuild whose filtered record set is empty leaves the index
Empty (no messages, no embeddings) and `retrieve_relevant_context` then
returns `""` for every question; when such a rebuild follows a successful
build, the stale embeddings instead remain in place and retrieval can raise
`IndexError`. -/
theorem C3_amended (E : Embedder) (st : DataStore) (items : List RawRecord)
    (hf : formatRecords items = []) (he : st.embeddings = none) :
    (builtState E st items).messages = [] ∧
    (builtState E st items).embeddings = none ∧
    ∀ (q : String) (k : Nat),
      retrieve_relevant_context E (builtState E st items) q k = some "" := by
  have hstate : builtState E st items = ⟨[], none⟩ := by
    unfold builtState fetch_and_index
    simp [hf, he]
  refine ⟨by rw [hstate], by rw [hstate], ?_⟩
  intro q k
  rw [hstate]
  rfl

/-- C3 witness: an empty-filtered rebuild from the initial state (the single
record lacks the `user_name` field). -/
theorem C3_amended_witness :
    formatRecords [(⟨none, some "m"⟩ : RawRecord)] = [] ∧
    initDataStore.embeddings = none ∧
    (builtState E0 initDataStore [⟨none, some "m"⟩]).messages = [] ∧
    (builtState E0 initDataStore [⟨none, some "m"⟩]).embeddings = none ∧
    retrieve_relevant_context E0 (builtState E0 initDataStore
      [⟨none, some "m"⟩]) "q" 10 = some "" := by
  have h := C3_amended E0 initDataStore [⟨none, some "m"⟩] (by decide) rfl
  exact ⟨by decide, rfl, h.1, h.2.1, h.2.2 "q" 10⟩

/-! ### C9 -/

/-- C9: the recovery path of `fetch_and_index` handles only transport-level
request errors; an HTTP error status raised by `raise_for_status` and a
JSON-decoding failure are not caught — the store state is left unchanged and
the exception propagates to the caller instead of being treated as zero
records. -/
theorem C9_status_and_json_errors_propagate (E : Embedder) (st : DataStore)
    (status : Nat) (err : String) :
    fetch_and_index E st (FetchOutcome.httpStatusError status) =
      (st, some (PyError.httpStatusError status)) ∧
    fetch_and_index E st (FetchOutcome.jsonDecodeError err) =
      (st, some (PyError.jsonDecodeError err)) :=
  ⟨rfl, rfl⟩

/-! ### C4 -/

/-- C4 as stated: on an exact similarity tie (equal score values, i.e.
`sle` in both directions), the lower insertion index is selected in
preference to the higher one and ordered before it. -/
def claimC4 : Prop :=
  ∀ (E : Embedder) (st : DataStore) (q : String) (k i j : Nat),
    i < j → j < (simsOf E st q).length →
    sle (scoreAt (simsOf E st q) i) (scoreAt (simsOf E st q) j) = true →
    sle (scoreAt (simsOf E st q) j) (scoreAt (simsOf E st q) i) = true →
    j ∈ topKIndices E st q k →
    i ∈ topKIndices E st q k ∧ [i, j].Sublist (topKIndices E st q k)

/-- C4 (counterexample): two identical messages tie on every question; with
`top_k = 1` the code selects index 1, not index 0 — `argsort` ascends and
the trailing slice plus reversal favour the higher index on ties. -/
theorem C4_counterexample : ¬ claimC4 := by
  intro h
  have h2 := h E0 readySt2 "q" 1 0 1 (by decide) (by decide) (by decide)
    (by decide) (by decide)
  exact absurd h2.1 (by decide)

/-- C4 (amended): on an exact similarity tie the HIGHER insertion index
wins: if the lower index `i` is selected then the higher tied index `j` is
selected as well, and `j` is ordered before `i` in the selection. -/
theorem C4_amended (E : Embedder) (st : DataStore) (q : String) (k i j : Nat)
    (hij : i < j) (hj : j < (simsOf E st q).length)
    (h1 : sle (scoreAt (simsOf E st q) i) (scoreAt (simsOf E st q) j) = true)
    (h2 : sle (scoreAt (simsOf E st q) j) (scoreAt (simsOf E st q) i) = true)
    (hi : i ∈ topKIndices E st q k) :
    j ∈ topKIndices E st q k ∧ [j, i].Sublist (topKIndices E st q k) := by
  have hden : ∀ m, 0 < (scoreAt (simsOf E st q) m).den :=
    scoreAt_den_pos (simsOf_den_pos E st q)
  have hsort := argsort_sorted (simsOf E st q) hden
  obtain ⟨hij_le, hji_f⟩ := idxLe_tie_lt hij h1 h2
  have hi_tail : i ∈ pyTail k (argsort (simsOf E st q)) := by
    unfold topKIndices at hi
    exact List.mem_reverse.mp hi
  have hj_l : j ∈ argsort (simsOf E st q) := (mem_argsort _ _).mpr hj
  have hj_tail : j ∈ pyTail k (argsort (simsOf E st q)) :=
    mem_pyTail_of_not_below hsort hi_tail hj_l hji_f
  have hj_topk : j ∈ topKIndices E st q k := by
    unfold topKIndices
    exact List.mem_reverse.mpr hj_tail
  refine ⟨hj_topk, ?_⟩
  have hne : j ≠ i := Nat.ne_of_gt hij
  rcases pair_sublist_or hj_topk hi hne with hgood | hbad
  · exact hgood
  · exfalso
    have hpw := topKIndices_pairwise_ge E st q k
    have hcontra := List.pairwise_iff_forall_sublist.mp hpw hbad
    rw [hji_f] at hcontra
    cases hcontra

/-- C4 witness: with the two tied messages and `top_k = 2`, index 0 is
selected, index 1 is selected as well, and 1 precedes 0. -/
theorem C4_amended_witness :
    (0 : Nat) < 1 ∧ 1 < (simsOf E0 readySt2 "q").length ∧
    0 ∈ topKIndices E0 readySt2 "q" 2 ∧
    (1 ∈ topKIndices E0 readySt2 "q" 2 ∧
      [1, 0].Sublist (topKIndices E0 readySt2 "q" 2)) :=
  ⟨by decide, by decide, by decide,
    C4_amended E0 readySt2 "q" 2 0 1 (by decide) (by decide) (by decide)
      (by decide) (by decide)⟩

/-! ### C5 -/

/-- C5 as stated: for every `top_k`, the retrieval keeps at most `top_k`
messages, all with similarity strictly above the threshold. -/
def claimC5 : Prop :=
  ∀ (E : Embedder) (st : DataStore) (q : String) (k : Nat),
    (retrieveList E st q k).length ≤ k ∧
    ∀ i ∈ retrieveList E st q k, sgt03 (scoreAt (simsOf E st q) i) = true

/-- C5 (counterexample): `top_k = 0` breaks the bound: the Python slice
`[-0:]` is the whole array, so one message is retrieved although
`top_k = 0`. -/
theorem C5_counterexample : ¬ claimC5 := by
  intro h
  have h2 := (h E0 readySt "q" 0).1
  exact absurd h2 (by decide)

/-- C5 (amended): for every `top_k ≥ 1` the retrieval keeps at most `top_k`
messages, and every kept message clears the threshold strictly — both in
the decided form and as real values, `0.3 < score`. -/
theorem C5_amended (E : Embedder) (st : DataStore) (q : String) (k : Nat)
    (hk : 1 ≤ k) :
    (retrieveList E st q k).length ≤ k ∧
    ∀ i ∈ retrieveList E st q k,
      sgt03 (scoreAt (simsOf E st q) i) = true ∧
      (3 / 10 : ℝ) < (scoreAt (simsOf E st q) i).val := by
  constructor
  · have h1 : (retrieveList E st q k).length ≤ (topKIndices E st q k).length := by
      unfold retrieveList
      exact List.length_filter_le _ _
    have h2 : (topKIndices E st q k).length ≤ k := by
      unfold topKIndices pyTail
      rw [List.length_reverse, if_neg (by omega : ¬ k = 0), List.length_drop]
      omega
    omega
  · intro i hi
    unfold retrieveList at hi
    have hmem := List.mem_filter.mp hi
    refine ⟨hmem.2, ?_⟩
    have hden : 0 < (scoreAt (simsOf E st q) i).den :=
      scoreAt_den_pos (simsOf_den_pos E st q) i
    exact (sgt03_iff_val hden).mp hmem.2

/-- C5 witness: the amended bound at the one-message Ready store with the
default `top_k = 10`. -/
theorem C5_amended_witness :
    (1 : Nat) ≤ 10 ∧
    ((retrieveList E0 readySt "q" 10).length ≤ 10 ∧
      ∀ i ∈ retrieveList E0 readySt "q" 10,
        sgt03 (scoreAt (simsOf E0 readySt "q") i) = true ∧
        (3 / 10 : ℝ) < (scoreAt (simsOf E0 readySt "q") i).val) :=
  ⟨by decide, C5_amended E0 readySt "q" 10 (by decide)⟩

/-! ### C6 -/

/-- C6: on the state built by a successful fetch, retrieval produces exactly
the concatenation of the newline-terminated selected message lines in
selection order, the selected indices are ordered by descending similarity
(both in decided form and on real score values), and every stored message
line is the canonical `speaker: text` rendering of a fetched record. -/
theorem C6_descending_canonical_lines (E : Embedder) (st0 : DataStore)
    (items : List RawRecord) (q : String) (k : Nat)
    (hne : formatRecords items ≠ []) :
    retrieve_relevant_context E (builtState E st0 items) q k =
      some (lineConcat (builtState E st0 items).messages
        (retrieveList E (builtState E st0 items) q k)) ∧
    List.Pairwise (fun a b =>
        sle (scoreAt (simsOf E (builtState E st0 items) q) b)
          (scoreAt (simsOf E (builtState E st0 items) q) a) = true)
      (retrieveList E (builtState E st0 items) q k) ∧
    List.Pairwise (fun a b =>
        (scoreAt (simsOf E (builtState E st0 items) q) b).val ≤
          (scoreAt (simsOf E (builtState E st0 items) q) a).val)
      (retrieveList E (builtState E st0 items) q k) ∧
    ∀ m ∈ (builtState E st0 items).messages, ∃ r ∈ items, ∃ u t,
      r.user_name = some u ∧ r.message = some t ∧ m = u ++ ": " ++ t := by
  have hstate : builtState E st0 items =
      ⟨formatRecords items, some ((formatRecords items).map E)⟩ := by
    unfold builtState fetch_and_index
    simp [hne]
  have hmsgs : (builtState E st0 items).messages = formatRecords items := by
    rw [hstate]
  have hemb : (builtState E st0 items).embeddings =
      some ((formatRecords items).map E) := by
    rw [hstate]
  have hsims_len : (simsOf E (builtState E st0 items) q).length =
      (builtState E st0 items).messages.length := by
    unfold simsOf
    rw [hemb, hmsgs]
    simp
  have hden : ∀ m, 0 < (scoreAt (simsOf E (builtState E st0 items) q) m).den :=
    scoreAt_den_pos (simsOf_den_pos E (builtState E st0 items) q)
  have hrange : ∀ i ∈ topKIndices E (builtState E st0 items) q k,
      i < (builtState E st0 items).messages.length := by
    intro i hi
    have := topKIndices_mem_lt E (builtState E st0 items) q k i hi
    omega
  refine ⟨?_, ?_, ?_, ?_⟩
  · unfold retrieve_relevant_context
    rw [hemb]
    have hlen_ne : ¬ ((formatRecords items).map E).length = 0 := by
      simpa [List.length_eq_zero] using hne
    show (if ((formatRecords items).map E).length = 0 then some ""
      else buildContext (builtState E st0 items).messages
        (simsOf E (builtState E st0 items) q)
        (topKIndices E (builtState E st0 items) q k)) = _
    rw [if_neg hlen_ne, buildContext_eq_render hrange,
      renderContext_eq_lineConcat]
    rfl
  · exact List.Pairwise.filter _
      (List.Pairwise.imp (fun h => sle_of_idxLe h)
        (topKIndices_pairwise_ge E (builtState E st0 items) q k))
  · exact List.Pairwise.filter _
      (List.Pairwise.imp
        (fun h => (sle_iff_val (hden _) (hden _)).mp (sle_of_idxLe h))
        (topKIndices_pairwise_ge E (builtState E st0 items) q k))
  · intro m hm
    rw [hmsgs] at hm
    unfold formatRecords at hm
    obtain ⟨r, hr, hfr⟩ := List.mem_filterMap.mp hm
    rcases hmsg : r.message with _ | t <;> rcases hu : r.user_name with _ | u <;>
      simp [hmsg, hu] at hfr
    exact ⟨r, hr, u, t, hu, hmsg, hfr.symm⟩

/-- C6 witness: the single-record build retrieves the one canonical line. -/
theorem C6_witness :
    formatRecords [recUM] ≠ [] ∧
    (retrieve_relevant_context E0 (builtState E0 initDataStore [recUM]) "q" 10 =
      some (lineConcat (builtState E0 initDataStore [recUM]).messages
        (retrieveList E0 (builtState E0 initDataStore [recUM]) "q" 10)) ∧
    List.Pairwise (fun a b =>
        sle (scoreAt (simsOf E0 (builtState E0 initDataStore [recUM]) "q") b)
          (scoreAt (simsOf E0 (builtState E0 initDataStore [recUM]) "q") a) = true)
      (retrieveList E0 (builtState E0 initDataStore [recUM]) "q" 10) ∧
    List.Pairwise (fun a b =>
        (scoreAt (simsOf E0 (builtState E0 initDataStore [recUM]) "q") b).val ≤
          (scoreAt (simsOf E0 (builtState E0 initDataStore [recUM]) "q") a).val)
      (retrieveList E0 (builtState E0 initDataStore [recUM]) "q" 10) ∧
    ∀ m ∈ (builtState E0 initDataStore [recUM]).messages, ∃ r ∈ [recUM], ∃ u t,
      r.user_name = some u ∧ r.message = some t ∧ m = u ++ ": " ++ t) :=
  ⟨by decide, C6_descending_canonical_lines E0 initDataStore [recUM] "q" 10 (by decide)⟩

/-! ### C7 -/

/-- C7: when the index is Ready (`messages` non-empty) but the retriever
yields the empty context string, `ask_question` returns the canned
no-relevant-information answer and never invokes the generation capability,
whatever generator is supplied. -/
theorem C7_empty_context_skips_generation (E : Embedder) (st : DataStore)
    (q : String) (gen : String → GenOutcome)
    (h1 : st.messages ≠ [])
    (h2 : retrieve_relevant_context E st q 10 = some "") :
    ask_question E st q gen = (AskResult.answer noInfoAnswer, false) := by
  unfold ask_question
  rw [if_neg h1, h2]
  rfl

/-- C7 witness: a Ready store whose one embedding is orthogonal to the
question embedding, so nothing clears the threshold. -/
theorem C7_witness :
    orthoSt.messages ≠ [] ∧
    retrieve_relevant_context E1 orthoSt "q" 10 = some "" ∧
    ask_question E1 orthoSt "q" (fun _ => GenOutcome.ok "x") =
      (AskResult.answer noInfoAnswer, false) :=
  ⟨by decide, by decide,
    C7_empty_context_skips_generation E1 orthoSt "q" _ (by decide) (by decide)⟩

/-! ### C8 -/

/-- C8: with a Ready index and a non-empty context, every failure of the
generation capability is caught and mapped to the one fixed 500 response —
the caller-visible detail is the constant `genFailureDetail`, independent of
the provider error — and a successful generation whose trimmed text is
empty is replaced by the canned trouble-generating answer. -/
theorem C8_generation_failure_mapped (E : Embedder) (st : DataStore)
    (q ctx : String) (gen : String → GenOutcome)
    (h1 : st.messages ≠ [])
    (h2 : retrieve_relevant_context E st q 10 = some ctx)
    (h3 : ctx ≠ "") :
    (∀ e, gen (mkPrompt ctx q) = GenOutcome.failure e →
      ask_question E st q gen = (AskResult.httpError 500 genFailureDetail, true)) ∧
    (∀ t, gen (mkPrompt ctx q) = GenOutcome.ok t → t.trim = "" →
      ask_question E st q gen = (AskResult.answer emptyAnswerFallback, true)) := by
  constructor
  · intro e hg
    unfold ask_question
    rw [if_neg h1, h2]
    show (if ctx = "" then (AskResult.answer noInfoAnswer, false)
      else match gen (mkPrompt ctx q) with
        | .failure _ => (AskResult.httpError 500 genFailureDetail, true)
        | .ok t =>
          (AskResult.answer (if t.trim = "" then emptyAnswerFallback else t.trim),
            true)) = _
    rw [if_neg h3, hg]
  · intro t hg ht
    unfold ask_question
    rw [if_neg h1, h2]
    show (if ctx = "" then (AskResult.answer noInfoAnswer, false)
      else match gen (mkPrompt ctx q) with
        | .failure _ => (AskResult.httpError 500 genFailureDetail, true)
        | .ok t =>
          (AskResult.answer (if t.trim = "" then emptyAnswerFallback else t.trim),
            true)) = _
    rw [if_neg h3, hg]
    show (AskResult.answer (if t.trim = "" then emptyAnswerFallback else t.trim),
      true) = _
    rw [ht, if_pos rfl]

/-- C8 witness: the failing generator at a Ready store with a retrieved
context line. -/
theorem C8_witness :
    readySt.messages ≠ [] ∧
    retrieve_relevant_context E0 readySt "q" 10 = some "u: m\n" ∧
    ("u: m\n" : String) ≠ "" ∧
    ask_question E0 readySt "q" (fun _ => GenOutcome.failure "boom") =
      (AskResult.httpError 500 genFailureDetail, true) :=
  ⟨by decide, by decide, by decide,
    (C8_generation_failure_mapped E0 readySt "q" "u: m\n"
      (fun _ => GenOutcome.failure "boom") (by decide) (by decide)
      (by decide)).1 "boom" rfl⟩

/-! ### C10 -/

/-- C10: whenever retrieval returns a non-empty context string, that string
is a concatenation of newline-terminated lines, hence ends with a newline
character. -/
theorem C10_nonempty_context_newline_terminated (E : Embedder)
    (st : DataStore) (q : String) (k : Nat) (ctx : String)
    (h : retrieve_relevant_context E st q k = some ctx) (hne : ctx ≠ "") :
    ∃ s, ctx = s ++ "\n" := by
  unfold retrieve_relevant_context at h
  split at h
  · exact absurd (Option.some.inj h).symm hne
  · split at h
    · exact absurd (Option.some.inj h).symm hne
    · unfold buildContext at h
      rcases foldl_ctxStep_shape _ _ _ _ _ h with h1 | h1
      · exact absurd h1 hne
      · exact h1

/-- C10 witness: the one-line retrieved context ends in a newline. -/
theorem C10_witness :
    retrieve_relevant_context E0 readySt "q" 10 = some "u: m\n" ∧
    ("u: m\n" : String) ≠ "" ∧ ∃ s, ("u: m\n" : String) = s ++ "\n" :=
  ⟨by decide, by decide,
    C10_nonempty_context_newline_terminated E0 readySt "q" 10 "u: m\n"
      (by decide) (by decide)⟩

end MemberQA
